import Mathlib

/-!
A shallow embedding of the authentication/session core and the password-vault
reveal/encryption flow of the application (an Express + Prisma backend), with
proofs about its behaviour.

Modelling conventions:
* Machine time (`Date.now`) is a natural number `now` passed to each handler.
* The relational store (Prisma) is a record of lists; `findUnique`/`findFirst`
  become `List.find?`, `deleteMany` becomes `List.filter`, `create` appends a
  row whose id is drawn from a `nextId` counter (Prisma generates fresh cuids;
  freshness is what matters).
* `jsonwebtoken` tokens are modelled as records carrying the signed payload,
  the expiry instant (`iat + expiresIn`) and the secret used for signing:
  `jwt.sign` is deterministic in (payload, iat, expiresIn, secret), and
  `jwt.verify` succeeds exactly when the secret matches and the token is not
  past its expiry.  A token "signed" with a different secret models any
  tampered or foreign token.
* `bcryptjs` is modelled as an ideal slow hash: a hash records the password it
  was derived from and the cost factor, and `bcrypt.compare` succeeds exactly
  when the same password is supplied.
* Each route handler returns the updated store paired with either an `ApiError`
  (the `throw new ApiError(status, message)` paths) or its success payload.
-/

/-- Equality of handler results (`Except`) is decidable componentwise. -/
instance {ε α : Type} [DecidableEq ε] [DecidableEq α] : DecidableEq (Except ε α)
  | .ok a, .ok b =>
    if h : a = b then .isTrue (by rw [h])
    else .isFalse (by simp [h])
  | .error a, .error b =>
    if h : a = b then .isTrue (by rw [h])
    else .isFalse (by simp [h])
  | .ok _, .error _ => .isFalse (by simp)
  | .error _, .ok _ => .isFalse (by simp)

namespace App

/-! ## Token issuer (src/backend/src/utils/jwt.ts) -/

/-- The `TokenPayload` interface of `utils/jwt.ts`: `{ userId, email }`. -/
structure TokenPayload where
  userId : Nat
  email : String
deriving DecidableEq, Repr

/-- A signed JSON web token: payload, absolute expiry instant, signing secret. -/
structure Jwt where
  payload : TokenPayload
  exp : Nat
  secret : String
deriving DecidableEq, Repr

/-- `JWT_ACCESS_SECRET` default from `utils/jwt.ts`. -/
def ACCESS_SECRET : String := "default-access-secret-key-32-chars"

/-- `JWT_REFRESH_SECRET` default from `utils/jwt.ts`. -/
def REFRESH_SECRET : String := "default-refresh-secret-key-32-chars"

/-- `JWT_ACCESS_EXPIRES` default `'15m'`, in seconds. -/
def ACCESS_EXPIRES : Nat := 15 * 60

/-- `JWT_REFRESH_EXPIRES` default `'7d'`, in seconds. -/
def REFRESH_EXPIRES : Nat := 7 * 86400

/-- `generateAccessToken` of `utils/jwt.ts`. -/
def generateAccessToken (payload : TokenPayload) (now : Nat) : Jwt :=
  ⟨payload, now + ACCESS_EXPIRES, ACCESS_SECRET⟩

/-- `generateRefreshToken` of `utils/jwt.ts`. -/
def generateRefreshToken (payload : TokenPayload) (now : Nat) : Jwt :=
  ⟨payload, now + REFRESH_EXPIRES, REFRESH_SECRET⟩

/-- `jwt.verify`: succeeds iff the signing secret matches and the expiry has
not passed. -/
def verifyJwt (t : Jwt) (secret : String) (now : Nat) : Option TokenPayload :=
  if t.secret = secret ∧ now < t.exp then some t.payload else none

/-- `verifyAccessToken` of `utils/jwt.ts`. -/
def verifyAccessToken (t : Jwt) (now : Nat) : Option TokenPayload :=
  verifyJwt t ACCESS_SECRET now

/-- `verifyRefreshToken` of `utils/jwt.ts`. -/
def verifyRefreshToken (t : Jwt) (now : Nat) : Option TokenPayload :=
  verifyJwt t REFRESH_SECRET now

/-- `getRefreshTokenExpiry` of `utils/jwt.ts`: now plus 7 days. -/
def getRefreshTokenExpiry (now : Nat) : Nat :=
  now + REFRESH_EXPIRES

/-! ## Credential store (bcryptjs) -/

/-- An ideal model of a bcrypt hash: it remembers the hashed password and the
cost factor, and nothing else can collide with it. -/
structure BcryptHash where
  password : String
  cost : Nat
deriving DecidableEq, Repr

/-- `bcrypt.hash(password, salt)` with a salt of the given cost. -/
def bcryptHash (password : String) (cost : Nat) : BcryptHash :=
  ⟨password, cost⟩

/-- `bcrypt.compare(candidate, hash)`. -/
def bcryptCompare (candidate : String) (h : BcryptHash) : Bool :=
  h.password = candidate

/-! ## Data model (prisma schema) -/

/-- The `User` row: `password` holds the bcrypt hash, `isDeleted` is the
soft-delete flag. -/
structure User where
  id : Nat
  name : String
  email : String
  password : BcryptHash
  isDeleted : Bool
deriving DecidableEq, Repr

/-- The `RefreshToken` row: `{id, token (unique), userId, expiresAt}`. -/
structure RefreshToken where
  id : Nat
  token : Jwt
  userId : Nat
  expiresAt : Nat
deriving DecidableEq, Repr

/-- The `PasswordVault` row (fields relevant to the reveal flow). -/
structure PasswordVault where
  id : Nat
  website : String
  username : String
  encryptedPassword : String
  userId : Nat
  categoryId : Nat
  isDeleted : Bool
deriving DecidableEq, Repr

/-- The relational store.  `nextId` models Prisma's generation of fresh ids. -/
structure DB where
  users : List User
  refreshTokens : List RefreshToken
  vault : List PasswordVault
  nextId : Nat
deriving DecidableEq, Repr

/-- The `ApiError` class of `middleware/errorHandler.ts`:
`{statusCode, message}`. -/
structure ApiError where
  statusCode : Nat
  message : String
deriving DecidableEq, Repr

/-- The success payload shared by `signup` and `login`:
`{user, accessToken, refreshToken}`. -/
structure AuthData where
  userId : Nat
  name : String
  email : String
  accessToken : Jwt
  refreshToken : Jwt
deriving DecidableEq, Repr

/-! ## Vault encryption unit (src backend utils/encryption.ts)

`encryptPassword` / `decryptPassword` wrap `CryptoJS.AES.encrypt/decrypt` in
passphrase mode.  CryptoJS there composes: UTF-8 encode, PKCS7 pad, AES-CBC
with a key/iv derived by `EvpKDF` from the passphrase and a fresh 8-byte salt,
the OpenSSL `Salted__` container, and Base64.  Bytes are naturals < 256.

The AES block permutation and the EvpKDF derivation are the only parts taken
as parameters (a `VaultCipher`): the key/iv depend on the fixed process-wide
passphrase and on the per-message salt, so the block maps and the iv are
indexed by the salt.  Everything else (padding, chaining, container format,
Base64, UTF-8) is modelled concretely, because the claims about this unit are
decided by that glue, not by the AES tables. -/

/-- UTF-8 encoding of one character (`CryptoJS.enc.Utf8`). -/
def utf8EncodeChar (c : Char) : List Nat :=
  if c.toNat < 0x80 then [c.toNat]
  else if c.toNat < 0x800 then [0xC0 + c.toNat / 0x40, 0x80 + c.toNat % 0x40]
  else if c.toNat < 0x10000 then
    [0xE0 + c.toNat / 0x1000, 0x80 + c.toNat / 0x40 % 0x40, 0x80 + c.toNat % 0x40]
  else
    [0xF0 + c.toNat / 0x40000, 0x80 + c.toNat / 0x1000 % 0x40,
     0x80 + c.toNat / 0x40 % 0x40, 0x80 + c.toNat % 0x40]

/-- UTF-8 encoding of a string. -/
def utf8Encode (s : String) : List Nat :=
  (s.data.map utf8EncodeChar).flatten

/-- Is the byte a UTF-8 continuation byte (`10xxxxxx`)? -/
def contByte (b : Nat) : Bool :=
  0x80 ≤ b && b < 0xC0

/-- Completes a two-byte UTF-8 sequence headed by `b0`. -/
def utf8Need2 (b0 : Nat) : List Nat → Option (Nat × List Nat)
  | b1 :: bs1 =>
    if contByte b1 then some ((b0 - 0xC0) * 0x40 + (b1 - 0x80), bs1) else none
  | _ => none

/-- Completes a three-byte UTF-8 sequence headed by `b0`. -/
def utf8Need3 (b0 : Nat) : List Nat → Option (Nat × List Nat)
  | b1 :: b2 :: bs2 =>
    if contByte b1 && contByte b2 then
      some ((b0 - 0xE0) * 0x1000 + (b1 - 0x80) * 0x40 + (b2 - 0x80), bs2)
    else none
  | _ => none

/-- Completes a four-byte UTF-8 sequence headed by `b0`. -/
def utf8Need4 (b0 : Nat) : List Nat → Option (Nat × List Nat)
  | b1 :: b2 :: b3 :: bs3 =>
    if contByte b1 && contByte b2 && contByte b3 then
      some ((b0 - 0xF0) * 0x40000 + (b1 - 0x80) * 0x1000 + (b2 - 0x80) * 0x40 +
        (b3 - 0x80), bs3)
    else none
  | _ => none

/-- Decodes one UTF-8 sequence off the front of the byte stream, returning
the code point and the remaining bytes; `none` on malformed input. -/
def utf8DecodeChar : List Nat → Option (Nat × List Nat)
  | [] => none
  | b0 :: bs =>
    if b0 < 0x80 then some (b0, bs)
    else if b0 < 0xC0 then none
    else if b0 < 0xE0 then utf8Need2 b0 bs
    else if b0 < 0xF0 then utf8Need3 b0 bs
    else if b0 < 0xF8 then utf8Need4 b0 bs
    else none

/-- Worker for `utf8Decode`; every decoded sequence consumes at least one
byte, so fuel equal to the byte count suffices. -/
def utf8DecodeLoop : Nat → List Nat → Option (List Char)
  | 0, [] => some []
  | 0, _ :: _ => none
  | _ + 1, [] => some []
  | fuel + 1, b :: bs =>
    match utf8DecodeChar (b :: bs) with
    | none => none
    | some (n, rest) => (utf8DecodeLoop fuel rest).map (Char.ofNat n :: ·)

/-- UTF-8 decoding; `none` models the `Malformed UTF-8 data` error thrown by
`CryptoJS.enc.Utf8.stringify`. -/
def utf8Decode (bs : List Nat) : Option (List Char) :=
  utf8DecodeLoop bs.length bs

/-- The Base64 alphabet used by `CryptoJS.enc.Base64`. -/
def b64Alphabet : List Char :=
  "ABCDEFGHIJKLMNOPQRSTUVWXYZabcdefghijklmnopqrstuvwxyz0123456789+/".data

/-- Character for a 6-bit group. -/
def b64Char (i : Nat) : Char :=
  b64Alphabet.getD i 'A'

/-- Index of a Base64 character (`reverseMap` in CryptoJS). -/
def b64Index (c : Char) : Nat :=
  b64Alphabet.indexOf c

/-- Base64 encoding, three input bytes at a time, `=`-padded at the end. -/
def b64EncodeGroups : List Nat → List Char
  | [] => []
  | [b0] => [b64Char (b0 / 4), b64Char (b0 % 4 * 16), '=', '=']
  | [b0, b1] =>
    [b64Char (b0 / 4), b64Char (b0 % 4 * 16 + b1 / 16), b64Char (b1 % 16 * 4), '=']
  | b0 :: b1 :: b2 :: rest =>
    b64Char (b0 / 4) :: b64Char (b0 % 4 * 16 + b1 / 16) ::
    b64Char (b1 % 16 * 4 + b2 / 64) :: b64Char (b2 % 64) :: b64EncodeGroups rest

/-- `CryptoJS.enc.Base64.stringify`. -/
def b64Encode (bs : List Nat) : String :=
  String.mk (b64EncodeGroups bs)

/-- Base64 decoding, four characters at a time; trailing partial groups yield
the bytes CryptoJS's `parseLoop` extracts from them. -/
def b64DecodeGroups : List Char → List Nat
  | c0 :: c1 :: c2 :: c3 :: rest =>
    (b64Index c0 * 4 + b64Index c1 / 16) ::
    (b64Index c1 % 16 * 16 + b64Index c2 / 4) ::
    (b64Index c2 % 4 * 64 + b64Index c3) :: b64DecodeGroups rest
  | [c0, c1] => [b64Index c0 * 4 + b64Index c1 / 16]
  | [c0, c1, c2] =>
    [b64Index c0 * 4 + b64Index c1 / 16, b64Index c1 % 16 * 16 + b64Index c2 / 4]
  | _ => []

/-- `CryptoJS.enc.Base64.parse`: input is cut at the first `=`. -/
def b64Decode (s : String) : List Nat :=
  b64DecodeGroups (s.data.takeWhile (· ≠ '='))

/-- `CryptoJS.pad.Pkcs7.pad` for the 16-byte AES block. -/
def pkcs7Pad (bs : List Nat) : List Nat :=
  let n := 16 - bs.length % 16
  bs ++ List.replicate n n

/-- `CryptoJS.pad.Pkcs7.unpad`: reads the pad length from the final byte and
truncates, with no validation of the padding; on empty input the JS index
expression evaluates to 0, so nothing is removed. -/
def pkcs7Unpad (bs : List Nat) : List Nat :=
  bs.take (bs.length - (bs.getLast?.getD 0))

/-- Fuelled worker for `fullBlocks`; the fuel only forces termination and is
always supplied as the length of the input. -/
def fullBlocksFuel : Nat → List Nat → List (List Nat)
  | 0, _ => []
  | fuel + 1, bs =>
    if bs.length < 16 then [] else bs.take 16 :: fullBlocksFuel fuel (bs.drop 16)

/-- Splits a byte string into its full 16-byte blocks; a trailing fragment of
fewer than 16 bytes is not processed by the block cipher. -/
def fullBlocks (bs : List Nat) : List (List Nat) :=
  fullBlocksFuel bs.length bs

/-- Bytewise XOR of two blocks (CBC chaining). -/
def xorBytes (a b : List Nat) : List Nat :=
  List.zipWith (· ^^^ ·) a b

/-- CBC encryption: each plaintext block is XORed with the previous
ciphertext block (initially the iv) and passed through the block cipher. -/
def cbcEncrypt (enc : List Nat → List Nat) : List Nat → List (List Nat) → List (List Nat)
  | _, [] => []
  | prev, b :: rest =>
    let c := enc (xorBytes prev b)
    c :: cbcEncrypt enc c rest

/-- CBC decryption. -/
def cbcDecrypt (dec : List Nat → List Nat) : List Nat → List (List Nat) → List (List Nat)
  | _, [] => []
  | prev, c :: rest => xorBytes prev (dec c) :: cbcDecrypt dec c rest

/-- The salt-indexed AES-256 block maps and EvpKDF-derived iv obtained from
the process-wide `AES_SECRET_KEY` passphrase.  `encBlock salt` and
`decBlock salt` are the AES encryption/decryption permutations under the key
derived from (passphrase, salt); `iv salt` is the derived 16-byte iv. -/
structure VaultCipher where
  encBlock : List Nat → List Nat → List Nat
  decBlock : List Nat → List Nat → List Nat
  iv : List Nat → List Nat

/-- The ASCII bytes of `"Salted__"`, the OpenSSL container magic. -/
def saltMagic : List Nat :=
  [0x53, 0x61, 0x6C, 0x74, 0x65, 0x64, 0x5F, 0x5F]

/-- `encryptPassword` of the encryption module: AES-CBC over the PKCS7-padded
UTF-8 plaintext, wrapped in the `Salted__` container and Base64-encoded.
The 8-byte `salt` is drawn at random by CryptoJS; it is a parameter here. -/
def encryptPassword (V : VaultCipher) (salt : List Nat) (password : String) : String :=
  let ct := (cbcEncrypt (V.encBlock salt) (V.iv salt)
    (fullBlocks (pkcs7Pad (utf8Encode password)))).flatten
  b64Encode (saltMagic ++ salt ++ ct)

/-- The one error `decryptPassword` can raise: `CryptoJS.enc.Utf8.stringify`
throwing `Malformed UTF-8 data`.  No other step of the pipeline validates
anything. -/
inductive DecryptionError where
  | malformedUtf8
deriving DecidableEq, Repr

/-- `decryptPassword` of the encryption module: Base64-decode, split off the
salt when the `Salted__` magic is present (otherwise the KDF runs saltless,
here `salt = []`), CBC-decrypt the full blocks, strip the PKCS7 count byte,
UTF-8 decode. -/
def decryptPassword (V : VaultCipher) (encryptedPassword : String) :
    Except DecryptionError String :=
  let bytes := b64Decode encryptedPassword
  let salt := if bytes.take 8 = saltMagic then (bytes.drop 8).take 8 else []
  let ct := if bytes.take 8 = saltMagic then bytes.drop 16 else bytes
  let pt := pkcs7Unpad ((cbcDecrypt (V.decBlock salt) (V.iv salt) (fullBlocks ct)).flatten)
  match utf8Decode pt with
  | some cs => .ok (String.mk cs)
  | none => .error .malformedUtf8

/-! ## Auth controller (the `signup`/`login`/`logout`/`refreshToken` handlers)

Each handler takes the store and the current time and returns the updated
store together with either the thrown `ApiError` or the success payload. -/

/-- `POST /api/auth/signup`.  `findUnique({where: {email}})` carries no
`isDeleted` filter; on a fresh email the user row is created (the bcrypt salt
has cost 12), both tokens are minted, and the refresh token is stored.
The default category rows also created here live in tables no modelled
operation reads, so they are not carried in `DB`. -/
def signup (db : DB) (now : Nat) (name email password : String) :
    DB × Except ApiError AuthData :=
  match db.users.find? (fun u => u.email = email) with
  | some _ => (db, .error ⟨400, "Email already registered"⟩)
  | none =>
    let hashedPassword := bcryptHash password 12
    let user : User := ⟨db.nextId, name, email, hashedPassword, false⟩
    let accessToken := generateAccessToken ⟨user.id, user.email⟩ now
    let refreshTok := generateRefreshToken ⟨user.id, user.email⟩ now
    let row : RefreshToken := ⟨db.nextId + 1, refreshTok, user.id, getRefreshTokenExpiry now⟩
    ({ users := db.users ++ [user]
       refreshTokens := db.refreshTokens ++ [row]
       vault := db.vault
       nextId := db.nextId + 2 },
     .ok ⟨user.id, user.name, user.email, accessToken, refreshTok⟩)

/-- `POST /api/auth/login`.  `findUnique({where: {email, isDeleted: false}})`,
bcrypt comparison, then `deleteMany({where: {userId}})` followed by one
`create` for the new refresh token. -/
def login (db : DB) (now : Nat) (email password : String) :
    DB × Except ApiError AuthData :=
  match db.users.find? (fun u => u.email = email && u.isDeleted = false) with
  | none => (db, .error ⟨401, "Invalid email or password"⟩)
  | some user =>
    if bcryptCompare password user.password = false then
      (db, .error ⟨401, "Invalid email or password"⟩)
    else
      let accessToken := generateAccessToken ⟨user.id, user.email⟩ now
      let refreshTok := generateRefreshToken ⟨user.id, user.email⟩ now
      let row : RefreshToken := ⟨db.nextId, refreshTok, user.id, getRefreshTokenExpiry now⟩
      ({ users := db.users
         refreshTokens := (db.refreshTokens.filter (fun r => r.userId ≠ user.id)) ++ [row]
         vault := db.vault
         nextId := db.nextId + 1 },
       .ok ⟨user.id, user.name, user.email, accessToken, refreshTok⟩)

/-- `POST /api/auth/logout`: if a principal is attached,
`deleteMany({where: {userId}})`; always responds with success. -/
def logout (db : DB) (userId : Option Nat) : DB × Except ApiError Unit :=
  match userId with
  | some uid =>
    ({ db with refreshTokens := db.refreshTokens.filter (fun r => r.userId ≠ uid) }, .ok ())
  | none => (db, .ok ())

/-- `POST /api/auth/refresh`: first `verifyRefreshToken` (any failure →
401 "Invalid refresh token"), then `findUnique({where: {token}})`; a missing
row and an expired row share the 401 "Refresh token expired" error, and the
expired row is deleted before throwing; otherwise a new access token is
minted from the verified claims. -/
def refreshToken (db : DB) (now : Nat) (token : Jwt) : DB × Except ApiError Jwt :=
  match verifyRefreshToken token now with
  | none => (db, .error ⟨401, "Invalid refresh token"⟩)
  | some decoded =>
    match db.refreshTokens.find? (fun r => r.token = token) with
    | none => (db, .error ⟨401, "Refresh token expired"⟩)
    | some storedToken =>
      if storedToken.expiresAt < now then
        ({ db with refreshTokens := db.refreshTokens.filter (fun r => r.id ≠ storedToken.id) },
         .error ⟨401, "Refresh token expired"⟩)
      else
        (db, .ok (generateAccessToken ⟨decoded.userId, decoded.email⟩ now))

/-! ## Session middleware (src/backend/src/middleware/auth.ts) -/

/-- An `Authorization` header split at the first space: the scheme word and,
when present, the bearer token (`authHeader.split(' ')[1]`; a missing or
empty second component is `none`). -/
structure AuthHeader where
  scheme : String
  token : Option Jwt

/-- The `authenticate` middleware.  A missing header, a non-`Bearer` scheme or
a missing token reject with 401 "Authentication required"; inside the inner
`try`, a failed verification, and also the `User not found` error raised when
the user row is absent or soft-deleted, are re-thrown by the inner `catch` as
401 "Invalid or expired token".  On success `{userId, email}` is attached and
the request proceeds; no store row is written. -/
def authenticate (db : DB) (now : Nat) (header : Option AuthHeader) :
    Except ApiError TokenPayload :=
  match header with
  | none => .error ⟨401, "Authentication required"⟩
  | some h =>
    if h.scheme ≠ "Bearer" then .error ⟨401, "Authentication required"⟩
    else
      match h.token with
      | none => .error ⟨401, "Authentication required"⟩
      | some t =>
        match verifyAccessToken t now with
        | none => .error ⟨401, "Invalid or expired token"⟩
        | some decoded =>
          match db.users.find? (fun u => u.id = decoded.userId && u.isDeleted = false) with
          | none => .error ⟨401, "Invalid or expired token"⟩
          | some _ => .ok decoded

/-! ## Vault controller: the reveal flow (`revealPassword`) -/

/-- `POST /api/vault/:id/reveal`.  Loads the caller's user row
(`findUnique({where: {id}})`), re-checks the account password with bcrypt,
loads the entry scoped to the caller
(`findFirst({where: {id, userId, isDeleted: false}})`), then decrypts.  A
decryption exception propagates to the global error handler, which maps
non-`ApiError` exceptions to 500 "Internal Server Error". -/
def revealPassword (V : VaultCipher) (db : DB) (userId entryId : Nat)
    (password : String) : DB × Except ApiError String :=
  match db.users.find? (fun u => u.id = userId) with
  | none => (db, .error ⟨401, "User not found"⟩)
  | some user =>
    if bcryptCompare password user.password = false then
      (db, .error ⟨401, "Invalid password"⟩)
    else
      match db.vault.find? (fun e => e.id = entryId && e.userId = userId && e.isDeleted = false) with
      | none => (db, .error ⟨404, "Password entry not found"⟩)
      | some passwordEntry =>
        match decryptPassword V passwordEntry.encryptedPassword with
        | .ok decrypted => (db, .ok decrypted)
        | .error _ => (db, .error ⟨500, "Internal Server Error"⟩)

/-! ## Ledger invariants and a claim-side refresh definition -/

/-- At most one refresh-token row per user: the rows carry pairwise distinct
`userId`s. -/
def atMostOnePerUser : List RefreshToken → Bool
  | [] => true
  | r :: rest => rest.all (fun x => x.userId != r.userId) && atMostOnePerUser rest

/-- Store sanity: one live session per user, every ledger row references an
existing user (the schema's foreign key), and every user id was generated by
the id supply. -/
def wellFormedDB (db : DB) : Bool :=
  atMostOnePerUser db.refreshTokens &&
  db.refreshTokens.all (fun r => db.users.any (fun u => r.userId == u.id)) &&
  db.users.all (fun u => u.id < db.nextId)

/-- Every ledger row stores the refresh token that was minted for its own
user, so the token's signed `userId` claim equals the row's `userId` (true of
every row `signup`/`login` insert). -/
def ledgerTokensOwn (db : DB) : Bool :=
  db.refreshTokens.all (fun r => r.token.payload.userId == r.userId)

/-- The refresh behaviour claim C2 prescribes (spec §4.2 `consumeForRefresh`),
written from the claim's words for comparison with `refreshToken`: the ledger
is consulted first — `NotFound` when no row is present, `Expired` with the
row deleted as a side effect when `expiresAt` has passed — and only then is
the token re-verified via the token issuer. -/
def consumeForRefreshClaimed (db : DB) (now : Nat) (token : Jwt) :
    DB × Except ApiError Jwt :=
  match db.refreshTokens.find? (fun r => r.token = token) with
  | none => (db, .error ⟨404, "NotFound"⟩)
  | some storedToken =>
    if storedToken.expiresAt < now then
      ({ db with refreshTokens := db.refreshTokens.filter (fun r => r.id ≠ storedToken.id) },
       .error ⟨401, "Expired"⟩)
    else
      match verifyRefreshToken token now with
      | none => (db, .error ⟨401, "Invalid refresh token"⟩)
      | some decoded => (db, .ok (generateAccessToken ⟨decoded.userId, decoded.email⟩ now))

/-! ## Concrete fixtures used by witnesses and counterexamples -/

/-- A concrete `VaultCipher` whose block maps are the identity permutation
and whose iv is all-zero; it satisfies every algebraic hypothesis the
theorems place on the AES layer. -/
def idCipher : VaultCipher :=
  ⟨fun _ b => b, fun _ b => b, fun _ => List.replicate 16 0⟩

/-- A concrete all-zero 8-byte salt. -/
def zeroSalt : List Nat :=
  List.replicate 8 0

/-- A concrete registered user. -/
def alice : User :=
  ⟨0, "Alice", "alice@x.com", bcryptHash "P@ssw0rd1" 12, false⟩

/-- A store holding just `alice`. -/
def dbA : DB :=
  ⟨[alice], [], [], 1⟩

/-- A soft-deleted user. -/
def bob : User :=
  ⟨0, "Bob", "bob@x.com", bcryptHash "hunter2" 12, true⟩

/-- A store whose only user is soft-deleted. -/
def dbDeleted : DB :=
  ⟨[bob], [], [], 1⟩

/-- A refresh token that was never minted by the issuer: its signing secret
is wrong, so `verifyRefreshToken` rejects it at any time. -/
def badToken : Jwt :=
  ⟨⟨0, "alice@x.com"⟩, 100, "forged-secret"⟩

/-- A ledger row for `badToken` that is already past its `expiresAt`. -/
def staleRow : RefreshToken :=
  ⟨5, badToken, 0, 3⟩

/-- A store holding `alice` and the stale ledger row. -/
def dbStale : DB :=
  ⟨[alice], [staleRow], [], 10⟩

/-- A concrete vault entry of `alice`, encrypted with `idCipher`/`zeroSalt`. -/
def vaultEntry1 : PasswordVault :=
  ⟨7, "example.com", "alice", encryptPassword idCipher zeroSalt "Tr0ub4dor&3", 0, 3, false⟩

/-- A store holding `alice` and her vault entry. -/
def dbVault : DB :=
  ⟨[alice], [], [vaultEntry1], 8⟩

/-- A refresh token actually minted by the issuer for `alice` at time 0. -/
def goodToken : Jwt :=
  generateRefreshToken ⟨0, "alice@x.com"⟩ 0

/-- A live ledger row for `goodToken`. -/
def goodRow : RefreshToken :=
  ⟨6, goodToken, 0, 50⟩

/-- A store holding `alice` and her live session row. -/
def dbGood : DB :=
  ⟨[alice], [goodRow], [], 10⟩

/-- A one-byte corruption of `encryptPassword idCipher zeroSalt "Tr0ub4dor&3"`:
the first ciphertext byte 0x54 is overwritten with 0x58 inside the same
`Salted__` container. -/
def tamperedCiphertext : String :=
  b64Encode (saltMagic ++ zeroSalt ++ ((pkcs7Pad (utf8Encode "Tr0ub4dor&3")).set 0 0x58))

/-- The payload `login dbA 0 "alice@x.com" "P@ssw0rd1"` returns. -/
def session1 : AuthData :=
  ⟨0, "Alice", "alice@x.com", generateAccessToken ⟨0, "alice@x.com"⟩ 0,
    generateRefreshToken ⟨0, "alice@x.com"⟩ 0⟩

/-- The store after that first login. -/
def dbAfter1 : DB :=
  ⟨[alice], [⟨1, session1.refreshToken, 0, getRefreshTokenExpiry 0⟩], [], 2⟩

/-- The payload a second login at time 1 returns. -/
def session2 : AuthData :=
  ⟨0, "Alice", "alice@x.com", generateAccessToken ⟨0, "alice@x.com"⟩ 1,
    generateRefreshToken ⟨0, "alice@x.com"⟩ 1⟩

/-- The store after the second login. -/
def dbAfter2 : DB :=
  ⟨[alice], [⟨2, session2.refreshToken, 0, getRefreshTokenExpiry 1⟩], [], 3⟩

/-! # Theorems -/

/-- C1: a vault-reveal request whose supplied account password fails the
bcrypt comparison against the caller's stored hash is rejected with the
constant 401 Unauthorized error — a response that therefore carries neither
the plaintext nor the ciphertext of any vault entry, the caller's or anyone
else's — and the store, in particular every vault entry, is returned
untouched. -/
theorem reveal_wrong_password_rejected (V : VaultCipher) (db : DB)
    (userId entryId : Nat) (password : String) (user : User)
    (hfind : db.users.find? (fun u => u.id = userId) = some user)
    (hpw : bcryptCompare password user.password = false) :
    revealPassword V db userId entryId password =
      (db, .error ⟨401, "Invalid password"⟩) := by
  unfold revealPassword
  rw [hfind]
  simp [hpw]

/-- C1 witness: revealing `alice`'s entry with a wrong account password. -/
theorem reveal_wrong_password_rejected_witness :
    revealPassword idCipher dbVault 0 7 "wrong" =
      (dbVault, .error ⟨401, "Invalid password"⟩) :=
  reveal_wrong_password_rejected idCipher dbVault 0 7 "wrong" alice
    (by decide) (by decide)

/-- C2 counterexample: for a token that fails issuer verification while the
ledger still holds its already-expired row, the code rejects with the
issuer's 401 "Invalid refresh token" and leaves the row in place, whereas
the claimed ledger-first behaviour (`consumeForRefreshClaimed`) deletes the
row and fails with the ledger's Expired error. -/
theorem refresh_ledger_first_counterexample :
    refreshToken dbStale 5 badToken ≠ consumeForRefreshClaimed dbStale 5 badToken ∧
    refreshToken dbStale 5 badToken = (dbStale, .error ⟨401, "Invalid refresh token"⟩) ∧
    dbStale.refreshTokens = [staleRow] ∧
    (consumeForRefreshClaimed dbStale 5 badToken).1.refreshTokens = [] := by
  decide

/-- C2 (amended): the refresh operation first re-verifies the token's
signature/claims via the token issuer — failure rejects with 401
"Invalid refresh token" and touches no ledger row — and only then looks the
token up in the ledger, where a missing row and an expired row fail with one
and the same 401 "Refresh token expired" error (the expired row being
deleted first as a side effect), while a live row yields a new access token
minted from the verified claims. -/
theorem refresh_behaviour (db : DB) (now : Nat) (t : Jwt) :
    (verifyRefreshToken t now = none →
      refreshToken db now t = (db, .error ⟨401, "Invalid refresh token"⟩)) ∧
    (∀ d, verifyRefreshToken t now = some d →
      db.refreshTokens.find? (fun r => r.token = t) = none →
      refreshToken db now t = (db, .error ⟨401, "Refresh token expired"⟩)) ∧
    (∀ d s, verifyRefreshToken t now = some d →
      db.refreshTokens.find? (fun r => r.token = t) = some s →
      s.expiresAt < now →
      refreshToken db now t =
        ({ db with refreshTokens := db.refreshTokens.filter (fun r => r.id ≠ s.id) },
         .error ⟨401, "Refresh token expired"⟩)) ∧
    (∀ d s, verifyRefreshToken t now = some d →
      db.refreshTokens.find? (fun r => r.token = t) = some s →
      ¬ s.expiresAt < now →
      refreshToken db now t = (db, .ok (generateAccessToken ⟨d.userId, d.email⟩ now))) := by
  refine ⟨fun hv => ?_, fun d hv hrow => ?_, fun d s hv hrow hexp => ?_,
    fun d s hv hrow hexp => ?_⟩ <;>
    · unfold refreshToken
      rw [hv]
      try rw [hrow]
      try simp [hexp]

/-- C2 witness: the live-row branch of `refresh_behaviour` on a concrete
store and a genuinely minted token. -/
theorem refresh_behaviour_witness :
    refreshToken dbGood 10 goodToken =
      (dbGood, .ok (generateAccessToken ⟨0, "alice@x.com"⟩ 10)) :=
  (refresh_behaviour dbGood 10 goodToken).2.2.2 ⟨0, "alice@x.com"⟩ goodRow
    (by decide) (by decide) (by decide)

/-- C8: an unknown (or soft-deleted) email and a registered email with a
password that fails the bcrypt comparison produce literally the same
observable outcome: the same 401 error with the same message, and an
unchanged store — a caller cannot tell the two apart. -/
theorem login_unknown_vs_wrong_password (db1 db2 : DB) (now1 now2 : Nat)
    (email1 email2 pw1 pw2 : String) (u : User)
    (h1 : db1.users.find? (fun v => v.email = email1 && v.isDeleted = false) = none)
    (h2 : db2.users.find? (fun v => v.email = email2 && v.isDeleted = false) = some u)
    (hpw : bcryptCompare pw2 u.password = false) :
    login db1 now1 email1 pw1 = (db1, .error ⟨401, "Invalid email or password"⟩) ∧
    login db2 now2 email2 pw2 = (db2, .error ⟨401, "Invalid email or password"⟩) := by
  constructor
  · unfold login
    rw [h1]
  · unfold login
    rw [h2]
    simp [hpw]

/-- C8 witness: logging in with an email nobody registered, and with
`alice`'s email but the wrong password. -/
theorem login_unknown_vs_wrong_password_witness :
    login dbA 0 "nobody@x.com" "pw" = (dbA, .error ⟨401, "Invalid email or password"⟩) ∧
    login dbA 3 "alice@x.com" "wrong" = (dbA, .error ⟨401, "Invalid email or password"⟩) :=
  login_unknown_vs_wrong_password dbA dbA 0 3 "nobody@x.com" "alice@x.com" "pw" "wrong"
    alice (by decide) (by decide) (by decide)

/-- C9: a successful refresh leaves the store — in particular the
refresh-token ledger — completely unchanged and returns a fresh access
token; consequently the very same refresh token is accepted again by any
later refresh call made before both the token's own signed expiry and the
ledger row's `expiresAt`. -/
theorem refresh_does_not_rotate (db : DB) (now : Nat) (t : Jwt)
    (d : TokenPayload) (s : RefreshToken)
    (hv : verifyRefreshToken t now = some d)
    (hrow : db.refreshTokens.find? (fun r => r.token = t) = some s)
    (hexp : ¬ s.expiresAt < now) :
    refreshToken db now t = (db, .ok (generateAccessToken ⟨d.userId, d.email⟩ now)) ∧
    ∀ now2, now2 < t.exp → ¬ s.expiresAt < now2 →
      refreshToken db now2 t =
        (db, .ok (generateAccessToken ⟨t.payload.userId, t.payload.email⟩ now2)) := by
  have hsec : t.secret = REFRESH_SECRET := by
    unfold verifyRefreshToken verifyJwt at hv
    by_cases h : t.secret = REFRESH_SECRET ∧ now < t.exp
    · exact h.1
    · rw [if_neg h] at hv
      exact absurd hv (by simp)
  constructor
  · unfold refreshToken
    rw [hv, hrow]
    simp [hexp]
  · intro now2 hlt hexp2
    have hv2 : verifyRefreshToken t now2 = some t.payload := by
      unfold verifyRefreshToken verifyJwt
      rw [if_pos ⟨hsec, hlt⟩]
    unfold refreshToken
    rw [hv2, hrow]
    simp [hexp2]

/-- C9 witness: refreshing twice with the same stored token. -/
theorem refresh_does_not_rotate_witness :
    refreshToken dbGood 10 goodToken =
      (dbGood, .ok (generateAccessToken ⟨0, "alice@x.com"⟩ 10)) ∧
    refreshToken dbGood 20 goodToken =
      (dbGood, .ok (generateAccessToken ⟨0, "alice@x.com"⟩ 20)) := by
  have h := refresh_does_not_rotate dbGood 10 goodToken ⟨0, "alice@x.com"⟩ goodRow
    (by decide) (by decide) (by decide)
  exact ⟨h.1, h.2 20 (by decide) (by decide)⟩

/-- C10: when every user holding an email is soft-deleted, `signup` with that
email still fails with the duplicate-email Conflict (its existence check has
no `isDeleted` filter) and `login` with it fails Unauthorized (its lookup
requires `isDeleted: false`) — the email is locked out of both entry
points, whatever passwords are supplied. -/
theorem deleted_user_email_unusable (db : DB) (now1 now2 : Nat)
    (name email pw1 pw2 : String)
    (hsome : ∃ u ∈ db.users, u.email = email)
    (hdel : ∀ u ∈ db.users, u.email = email → u.isDeleted = true) :
    signup db now1 name email pw1 = (db, .error ⟨400, "Email already registered"⟩) ∧
    login db now2 email pw2 = (db, .error ⟨401, "Invalid email or password"⟩) := by
  obtain ⟨u, hu, hue⟩ := hsome
  have hfound : ∃ v, db.users.find? (fun v => v.email = email) = some v := by
    have : (db.users.find? (fun v => v.email = email)).isSome = true := by
      rw [List.find?_isSome]
      exact ⟨u, hu, by simp [hue]⟩
    exact Option.isSome_iff_exists.mp this
  obtain ⟨v, hvfind⟩ := hfound
  have hnone : db.users.find? (fun w => w.email = email && w.isDeleted = false) = none := by
    rw [List.find?_eq_none]
    intro w hw
    by_cases hwe : w.email = email
    · simp [hwe, hdel w hw hwe]
    · simp [hwe]
  constructor
  · unfold signup
    rw [hvfind]
  · unfold login
    rw [hnone]

/-- C10 witness: `bob` is soft-deleted; his email can be used neither to sign
up nor to log in. -/
theorem deleted_user_email_unusable_witness :
    signup dbDeleted 0 "Eve" "bob@x.com" "pw" =
      (dbDeleted, .error ⟨400, "Email already registered"⟩) ∧
    login dbDeleted 1 "bob@x.com" "hunter2" =
      (dbDeleted, .error ⟨401, "Invalid email or password"⟩) :=
  deleted_user_email_unusable dbDeleted 0 1 "Eve" "bob@x.com" "pw" "hunter2"
    ⟨bob, by decide, by decide⟩ (by decide)

/-- C7: the authenticate middleware rejects with a 401 whenever it rejects at
all, and it attaches a principal exactly when the header is a Bearer header
carrying a token, the token passes access-token verification, and the
verified `userId` resolves to a non-soft-deleted user row — the principal
being precisely the token's `{userId, email}` claims. -/
theorem authenticate_characterisation (db : DB) (now : Nat)
    (header : Option AuthHeader) :
    (∀ e, authenticate db now header = .error e → e.statusCode = 401) ∧
    (∀ p, authenticate db now header = .ok p ↔
      ∃ h, header = some h ∧ h.scheme = "Bearer" ∧ ∃ t, h.token = some t ∧
        verifyAccessToken t now = some p ∧
        ∃ u ∈ db.users, u.id = p.userId ∧ u.isDeleted = false) := by
  unfold authenticate
  cases header with
  | none =>
    refine ⟨fun e he => ?_, fun p => ?_⟩
    · simp only [Except.error.injEq] at he
      rw [← he]
    · simp
  | some h =>
    dsimp only
    by_cases hs : h.scheme = "Bearer"
    · rw [if_neg (by simp [hs])]
      cases htok : h.token with
      | none =>
        refine ⟨fun e he => ?_, fun p => ?_⟩
        · simp only [Except.error.injEq] at he
          rw [← he]
        · simp [htok]
      | some t =>
        dsimp only
        cases hv : verifyAccessToken t now with
        | none =>
          refine ⟨fun e he => ?_, fun p => ?_⟩
          · simp only [Except.error.injEq] at he
            rw [← he]
          · refine iff_of_false (by simp) ?_
            rintro ⟨h', hh', -, t', ht', hv', -⟩
            rw [Option.some_inj] at hh'
            rw [← hh', htok, Option.some_inj] at ht'
            rw [← ht', hv] at hv'
            exact Option.noConfusion hv'
        | some decoded =>
          dsimp only
          cases hf : db.users.find? (fun u => u.id = decoded.userId && u.isDeleted = false) with
          | none =>
            refine ⟨fun e he => ?_, fun p => ?_⟩
            · simp only [Except.error.injEq] at he
              rw [← he]
            · refine iff_of_false (by simp) ?_
              rintro ⟨h', hh', -, t', ht', hv', u, hu, hid, hdel⟩
              rw [Option.some_inj] at hh'
              rw [← hh', htok, Option.some_inj] at ht'
              rw [← ht', hv, Option.some_inj] at hv'
              rw [List.find?_eq_none] at hf
              refine hf u hu ?_
              simp [hid, hdel, hv']
          | some u =>
            refine ⟨fun e he => Except.noConfusion he, fun p => ?_⟩
            constructor
            · intro hok
              rw [Except.ok.injEq] at hok
              refine ⟨h, rfl, hs, t, htok, ?_, u, List.mem_of_find?_eq_some hf, ?_⟩
              · rw [hv, hok]
              · have := List.find?_some hf
                rw [← hok]
                simpa using this
            · rintro ⟨h', hh', -, t', ht', hv', -⟩
              rw [Option.some_inj] at hh'
              rw [← hh', htok, Option.some_inj] at ht'
              rw [← ht', hv, Option.some_inj] at hv'
              rw [hv']
    · rw [if_pos hs]
      refine ⟨fun e he => ?_, fun p => ?_⟩
      · simp only [Except.error.injEq] at he
        rw [← he]
      · refine iff_of_false (by simp) ?_
        rintro ⟨h', hh', hsh, -⟩
        rw [Option.some_inj] at hh'
        rw [← hh'] at hsh
        exact hs hsh

/-- C7 witness: a request with no Authorization header is rejected with a
401 (`authenticate_characterisation` applied at a concrete store). -/
theorem authenticate_characterisation_witness :
    (⟨401, "Authentication required"⟩ : ApiError).statusCode = 401 :=
  (authenticate_characterisation dbA 0 none).1 ⟨401, "Authentication required"⟩ rfl

/-- C3: after a second successful login for the same credentials, a refresh
presenting the first login's refresh token fails with a 401 at any later
time, and leaves the store unchanged.  The hypothesis that the two issued
refresh tokens differ reflects the claim's premise that login #2 issues a
new token (`jwt.sign` returns the identical string only when both logins
happen within the same clock second); `ledgerTokensOwn` is the schema fact
that every pre-existing ledger row stores the token minted for its own
user. -/
theorem second_login_invalidates_first (db db1 db2 : DB) (now1 now2 now3 : Nat)
    (email password : String) (r1 r2 : AuthData)
    (hown : ledgerTokensOwn db = true)
    (h1 : login db now1 email password = (db1, .ok r1))
    (h2 : login db1 now2 email password = (db2, .ok r2))
    (hne : r1.refreshToken ≠ r2.refreshToken) :
    (refreshToken db2 now3 r1.refreshToken).1 = db2 ∧
    ∃ e : ApiError, (refreshToken db2 now3 r1.refreshToken).2 = .error e ∧
      e.statusCode = 401 := by
  unfold login at h1
  cases hf1 : db.users.find? (fun u => u.email = email && u.isDeleted = false) with
  | none => rw [hf1] at h1; simp at h1
  | some user =>
    rw [hf1] at h1
    dsimp only at h1
    cases hpw : bcryptCompare password user.password with
    | false => rw [hpw] at h1; simp at h1
    | true =>
      rw [hpw] at h1
      simp only [Bool.true_eq_false, if_false, Prod.mk.injEq, Except.ok.injEq] at h1
      obtain ⟨hdb1, hr1⟩ := h1
      unfold login at h2
      rw [← hdb1] at h2
      simp only [] at h2
      rw [hf1] at h2
      dsimp only at h2
      rw [hpw] at h2
      simp only [Bool.true_eq_false, if_false, Prod.mk.injEq, Except.ok.injEq] at h2
      obtain ⟨hdb2, hr2⟩ := h2
      have htok1 : r1.refreshToken = generateRefreshToken ⟨user.id, user.email⟩ now1 := by
        rw [← hr1]
      have hnone : db2.refreshTokens.find? (fun r => r.token = r1.refreshToken) = none := by
        rw [List.find?_eq_none]
        intro x hx
        rw [← hdb2] at hx
        simp only [List.mem_append, List.mem_filter, List.mem_singleton] at hx
        rcases hx with ⟨⟨hx0, -⟩ | hxrow1, hxid⟩ | hx2
        · have hxown : x.token.payload.userId = x.userId := by
            have := (List.all_eq_true.mp hown) x hx0
            simpa using this
          simp only [decide_eq_true_eq]
          intro hcontra
          rw [decide_eq_true_eq] at hxid
          refine hxid ?_
          rw [← hxown, hcontra, htok1]
          rfl
        · rw [hxrow1] at hxid
          simp at hxid
        · rw [hx2]
          simp only [decide_eq_true_eq]
          intro hcontra
          have hr2tok : r2.refreshToken =
              generateRefreshToken ⟨user.id, user.email⟩ now2 := by
            rw [← hr2]
          exact hne (by rw [← hcontra, hr2tok])
      unfold refreshToken
      cases hv : verifyRefreshToken r1.refreshToken now3 with
      | none => exact ⟨rfl, ⟨401, "Invalid refresh token"⟩, rfl, rfl⟩
      | some d =>
        rw [hnone]
        exact ⟨rfl, ⟨401, "Refresh token expired"⟩, rfl, rfl⟩

/-- C3 witness: two concrete logins for `alice` one second apart; the first
session's refresh token is then rejected. -/
theorem second_login_invalidates_first_witness :
    (refreshToken dbAfter2 5 session1.refreshToken).1 = dbAfter2 ∧
    ∃ e : ApiError, (refreshToken dbAfter2 5 session1.refreshToken).2 = .error e ∧
      e.statusCode = 401 :=
  second_login_invalidates_first dbA dbAfter1 dbAfter2 0 1 5 "alice@x.com" "P@ssw0rd1"
    session1 session2 (by decide) (by decide) (by decide) (by decide)

/-- `atMostOnePerUser` is exactly pairwise distinctness of the rows'
`userId`s. -/
theorem atMostOnePerUser_iff (l : List RefreshToken) :
    atMostOnePerUser l = true ↔ l.Pairwise (fun a b => a.userId ≠ b.userId) := by
  induction l with
  | nil => simp [atMostOnePerUser]
  | cons r rest ih =>
    rw [atMostOnePerUser]
    simp only [Bool.and_eq_true, List.all_eq_true, List.pairwise_cons, ih, bne_iff_ne]
    constructor
    · rintro ⟨hall, hrest⟩
      exact ⟨fun b hb => (hall b hb).symm, hrest⟩
    · rintro ⟨hall, hrest⟩
      exact ⟨fun b hb => (hall b hb).symm, hrest⟩

/-- Filtering the ledger preserves store well-formedness. -/
theorem wellFormedDB_filter (db : DB) (p : RefreshToken → Bool)
    (h : wellFormedDB db = true) :
    wellFormedDB { db with refreshTokens := db.refreshTokens.filter p } = true := by
  simp only [wellFormedDB, Bool.and_eq_true, List.all_eq_true, List.any_eq_true] at h ⊢
  obtain ⟨⟨hone, hfk⟩, hids⟩ := h
  refine ⟨⟨?_, ?_⟩, hids⟩
  · rw [atMostOnePerUser_iff] at hone ⊢
    exact List.Pairwise.filter p hone
  · intro r hr
    exact hfk r (List.mem_of_mem_filter hr)

/-- C4: the single-live-session ledger shape is an invariant of every
operation that touches the ledger.  Starting from a well-formed store
(pairwise-distinct `userId`s, rows referencing existing users, ids below the
id supply), `signup` (which inserts one row for the freshly created user),
`login` (which deletes all of the user's rows before inserting one),
`logout` (which deletes all of the user's rows) and `refreshToken` all leave
the store well-formed — and `refreshToken` inserts no row at all: every row
it leaves behind already existed. -/
theorem ledger_single_session_invariant (db : DB) (now : Nat)
    (name email password : String) (uid : Option Nat) (t : Jwt)
    (h : wellFormedDB db = true) :
    wellFormedDB (signup db now name email password).1 = true ∧
    wellFormedDB (login db now email password).1 = true ∧
    wellFormedDB (logout db uid).1 = true ∧
    wellFormedDB (refreshToken db now t).1 = true ∧
    ∀ r ∈ (refreshToken db now t).1.refreshTokens, r ∈ db.refreshTokens := by
  have h' := h
  simp only [wellFormedDB, Bool.and_eq_true, List.all_eq_true, List.any_eq_true,
    beq_iff_eq, decide_eq_true_eq] at h'
  obtain ⟨⟨hone, hfk⟩, hids⟩ := h'
  refine ⟨?_, ?_, ?_, ?_, ?_⟩
  · -- signup
    unfold signup
    cases hf : db.users.find? (fun u => u.email = email) with
    | some u => exact h
    | none =>
      dsimp only
      simp only [wellFormedDB, Bool.and_eq_true, List.all_eq_true, List.any_eq_true,
        beq_iff_eq, decide_eq_true_eq]
      refine ⟨⟨?_, ?_⟩, ?_⟩
      · rw [atMostOnePerUser_iff]
        rw [atMostOnePerUser_iff] at hone
        rw [List.pairwise_append]
        refine ⟨hone, List.pairwise_singleton _ _, ?_⟩
        intro a ha b hb
        rw [List.mem_singleton] at hb
        rw [hb]
        dsimp only
        obtain ⟨u, hu, hau⟩ := hfk a ha
        have := hids u hu
        omega
      · intro r hr
        rw [List.mem_append, List.mem_singleton] at hr
        rcases hr with hr | hr
        · obtain ⟨u, hu, hru⟩ := hfk r hr
          exact ⟨u, List.mem_append_left _ hu, hru⟩
        · rw [hr]
          exact ⟨⟨db.nextId, name, email, bcryptHash password 12, false⟩,
            List.mem_append_right _ (List.mem_singleton_self _), rfl⟩
      · intro u hu
        rw [List.mem_append, List.mem_singleton] at hu
        rcases hu with hu | hu
        · have := hids u hu
          omega
        · rw [hu]
          dsimp only
          omega
  · -- login
    unfold login
    cases hf : db.users.find? (fun u => u.email = email && u.isDeleted = false) with
    | none => exact h
    | some user =>
      dsimp only
      cases hpw : bcryptCompare password user.password with
      | false => simp only [if_pos rfl]; exact h
      | true =>
        rw [if_neg (by simp)]
        simp only [wellFormedDB, Bool.and_eq_true, List.all_eq_true, List.any_eq_true,
          beq_iff_eq, decide_eq_true_eq]
        refine ⟨⟨?_, ?_⟩, ?_⟩
        · rw [atMostOnePerUser_iff]
          rw [atMostOnePerUser_iff] at hone
          rw [List.pairwise_append]
          refine ⟨List.Pairwise.filter _ hone, List.pairwise_singleton _ _, ?_⟩
          intro a ha b hb
          rw [List.mem_singleton] at hb
          rw [hb]
          rw [List.mem_filter] at ha
          simpa using ha.2
        · intro r hr
          rw [List.mem_append, List.mem_singleton] at hr
          rcases hr with hr | hr
          · exact hfk r (List.mem_of_mem_filter hr)
          · rw [hr]
            exact ⟨user, List.mem_of_find?_eq_some hf, rfl⟩
        · intro u hu
          have := hids u hu
          omega
  · -- logout
    cases uid with
    | none => exact h
    | some u => exact wellFormedDB_filter db _ h
  · -- refresh keeps the store well-formed
    unfold refreshToken
    cases hv : verifyRefreshToken t now with
    | none => exact h
    | some d =>
      dsimp only
      cases hr : db.refreshTokens.find? (fun r => r.token = t) with
      | none => exact h
      | some s =>
        dsimp only
        by_cases hexp : s.expiresAt < now
        · rw [if_pos hexp]
          exact wellFormedDB_filter db _ h
        · rw [if_neg hexp]
          exact h
  · -- refresh inserts no row
    unfold refreshToken
    cases hv : verifyRefreshToken t now with
    | none => intro r hr; exact hr
    | some d =>
      dsimp only
      cases hr : db.refreshTokens.find? (fun r => r.token = t) with
      | none => intro r hr; exact hr
      | some s =>
        dsimp only
        by_cases hexp : s.expiresAt < now
        · rw [if_pos hexp]
          intro r hr
          exact List.mem_of_mem_filter hr
        · rw [if_neg hexp]
          intro r hr
          exact hr

/-- C4 witness: the invariant-preservation theorem applied to a concrete
well-formed store with one live session. -/
theorem ledger_single_session_invariant_witness :
    wellFormedDB (signup dbGood 7 "Carol" "carol@x.com" "pw").1 = true ∧
    wellFormedDB (login dbGood 7 "alice@x.com" "P@ssw0rd1").1 = true ∧
    wellFormedDB (logout dbGood (some 0)).1 = true ∧
    wellFormedDB (refreshToken dbGood 7 goodToken).1 = true ∧
    ∀ r ∈ (refreshToken dbGood 7 goodToken).1.refreshTokens,
      r ∈ dbGood.refreshTokens :=
  ledger_single_session_invariant dbGood 7 "Carol" "carol@x.com" "pw" (some 0)
    goodToken (by decide)

/-! ## Lemmas about the encryption pipeline -/

/-- A character's code point is below 0x110000. -/
theorem char_toNat_lt (c : Char) : c.toNat < 0x110000 := by
  have h := c.valid
  unfold UInt32.isValidChar Nat.isValidChar at h
  rcases h with h | ⟨h1, h2⟩
  · exact lt_trans h (by norm_num)
  · exact h2

/-- UTF-8 encoding produces bytes. -/
theorem utf8EncodeChar_lt (c : Char) : ∀ b ∈ utf8EncodeChar c, b < 256 := by
  intro b hb
  have hn : c.toNat < 0x110000 := char_toNat_lt c
  unfold utf8EncodeChar at hb
  split_ifs at hb with h1 h2 h3
  · simp only [List.mem_singleton] at hb
    omega
  · simp only [List.mem_cons, List.mem_singleton, List.not_mem_nil, or_false] at hb
    rcases hb with rfl | rfl <;> omega
  · simp only [List.mem_cons, List.mem_singleton, List.not_mem_nil, or_false] at hb
    rcases hb with rfl | rfl | rfl <;> omega
  · simp only [List.mem_cons, List.mem_singleton, List.not_mem_nil, or_false] at hb
    rcases hb with rfl | rfl | rfl | rfl <;> omega

/-- `utf8DecodeChar` reads the encoded character and its code point back off
the front of the byte stream. -/
theorem utf8DecodeChar_encodeChar (c : Char) (tl : List Nat) :
    utf8DecodeChar (utf8EncodeChar c ++ tl) = some (c.toNat, tl) := by
  have hv : c.toNat < 0x110000 := char_toNat_lt c
  unfold utf8EncodeChar
  by_cases h1 : c.toNat < 0x80
  · rw [if_pos h1, List.cons_append, List.nil_append]
    rw [utf8DecodeChar]
    rw [if_pos h1]
  · rw [if_neg h1]
    by_cases h2 : c.toNat < 0x800
    · rw [if_pos h2, List.cons_append, List.cons_append, List.nil_append]
      rw [utf8DecodeChar]
      rw [if_neg (by omega), if_neg (by omega), if_pos (by omega)]
      rw [utf8Need2]
      rw [if_pos (by unfold contByte; simp only [Bool.and_eq_true, decide_eq_true_eq]; omega)]
      rw [show 0xC0 + c.toNat / 0x40 - 0xC0 = c.toNat / 0x40 from by omega,
        show 0x80 + c.toNat % 0x40 - 0x80 = c.toNat % 0x40 from by omega,
        show c.toNat / 0x40 * 0x40 + c.toNat % 0x40 = c.toNat from by omega]
    · rw [if_neg h2]
      by_cases h3 : c.toNat < 0x10000
      · rw [if_pos h3, List.cons_append, List.cons_append, List.cons_append,
          List.nil_append]
        rw [utf8DecodeChar]
        rw [if_neg (by omega), if_neg (by omega), if_neg (by omega), if_pos (by omega)]
        rw [utf8Need3]
        rw [if_pos (by unfold contByte
                       simp only [Bool.and_eq_true, decide_eq_true_eq]
                       omega)]
        rw [show 0xE0 + c.toNat / 0x1000 - 0xE0 = c.toNat / 0x1000 from by omega,
          show 0x80 + c.toNat / 0x40 % 0x40 - 0x80 = c.toNat / 0x40 % 0x40 from by omega,
          show 0x80 + c.toNat % 0x40 - 0x80 = c.toNat % 0x40 from by omega]
        rw [show c.toNat / 0x1000 * 0x1000 + c.toNat / 0x40 % 0x40 * 0x40 +
            c.toNat % 0x40 = c.toNat from by omega]
      · rw [if_neg h3, List.cons_append, List.cons_append, List.cons_append,
          List.cons_append, List.nil_append]
        rw [utf8DecodeChar]
        rw [if_neg (by omega), if_neg (by omega), if_neg (by omega), if_neg (by omega),
          if_pos (by omega)]
        rw [utf8Need4]
        rw [if_pos (by unfold contByte
                       simp only [Bool.and_eq_true, decide_eq_true_eq]
                       omega)]
        rw [show 0xF0 + c.toNat / 0x40000 - 0xF0 = c.toNat / 0x40000 from by omega,
          show 0x80 + c.toNat / 0x1000 % 0x40 - 0x80 = c.toNat / 0x1000 % 0x40 from by omega,
          show 0x80 + c.toNat / 0x40 % 0x40 - 0x80 = c.toNat / 0x40 % 0x40 from by omega,
          show 0x80 + c.toNat % 0x40 - 0x80 = c.toNat % 0x40 from by omega]
        rw [show c.toNat / 0x40000 * 0x40000 + c.toNat / 0x1000 % 0x40 * 0x1000 +
            c.toNat / 0x40 % 0x40 * 0x40 + c.toNat % 0x40 = c.toNat from by omega]

/-- A decoded sequence strictly consumes input (`utf8Need2`). -/
theorem utf8Need2_shape (b0 n : Nat) (bs rest : List Nat)
    (h : utf8Need2 b0 bs = some (n, rest)) : ∃ b1, bs = b1 :: rest := by
  cases bs with
  | nil => exact Option.noConfusion h
  | cons b1 bs1 =>
    rw [utf8Need2] at h
    by_cases hc : contByte b1 = true
    · rw [if_pos hc] at h
      simp only [Option.some_inj, Prod.mk.injEq] at h
      exact ⟨b1, by rw [h.2]⟩
    · rw [if_neg hc] at h
      exact Option.noConfusion h

/-- A decoded sequence strictly consumes input (`utf8Need3`). -/
theorem utf8Need3_shape (b0 n : Nat) (bs rest : List Nat)
    (h : utf8Need3 b0 bs = some (n, rest)) : ∃ b1 b2, bs = b1 :: b2 :: rest := by
  match bs with
  | [] => exact Option.noConfusion h
  | [b1] => exact Option.noConfusion h
  | b1 :: b2 :: bs2 =>
    rw [utf8Need3] at h
    by_cases hc : (contByte b1 && contByte b2) = true
    · rw [if_pos hc] at h
      simp only [Option.some_inj, Prod.mk.injEq] at h
      exact ⟨b1, b2, by rw [h.2]⟩
    · rw [if_neg hc] at h
      exact Option.noConfusion h

/-- A decoded sequence strictly consumes input (`utf8Need4`). -/
theorem utf8Need4_shape (b0 n : Nat) (bs rest : List Nat)
    (h : utf8Need4 b0 bs = some (n, rest)) : ∃ b1 b2 b3, bs = b1 :: b2 :: b3 :: rest := by
  match bs with
  | [] => exact Option.noConfusion h
  | [b1] => exact Option.noConfusion h
  | [b1, b2] => exact Option.noConfusion h
  | b1 :: b2 :: b3 :: bs3 =>
    rw [utf8Need4] at h
    by_cases hc : (contByte b1 && contByte b2 && contByte b3) = true
    · rw [if_pos hc] at h
      simp only [Option.some_inj, Prod.mk.injEq] at h
      exact ⟨b1, b2, b3, by rw [h.2]⟩
    · rw [if_neg hc] at h
      exact Option.noConfusion h

/-- Each decoding step strictly shortens the byte stream. -/
theorem utf8DecodeChar_rest_lt (bs rest : List Nat) (n : Nat)
    (h : utf8DecodeChar bs = some (n, rest)) : rest.length < bs.length := by
  cases bs with
  | nil => exact Option.noConfusion h
  | cons b0 bs' =>
    rw [utf8DecodeChar] at h
    split_ifs at h with h1 h2 h3 h4 h5
    · simp only [Option.some_inj, Prod.mk.injEq] at h
      rw [← h.2]
      simp only [List.length_cons]
      omega
    · obtain ⟨b1, hb⟩ := utf8Need2_shape b0 n bs' rest h
      rw [hb]
      simp only [List.length_cons]
      omega
    · obtain ⟨b1, b2, hb⟩ := utf8Need3_shape b0 n bs' rest h
      rw [hb]
      simp only [List.length_cons]
      omega
    · obtain ⟨b1, b2, b3, hb⟩ := utf8Need4_shape b0 n bs' rest h
      rw [hb]
      simp only [List.length_cons]
      omega

/-- The decode loop is fuel-insensitive once the fuel covers the byte
count. -/
theorem utf8DecodeLoop_congr (f1 : Nat) : ∀ f2 bs, bs.length ≤ f1 → bs.length ≤ f2 →
    utf8DecodeLoop f1 bs = utf8DecodeLoop f2 bs := by
  induction f1 with
  | zero =>
    intro f2 bs h1 h2
    have : bs = [] := List.eq_nil_of_length_eq_zero (by omega)
    rw [this]
    cases f2 <;> rfl
  | succ f ih =>
    intro f2 bs h1 h2
    cases bs with
    | nil => cases f2 <;> rfl
    | cons b0 bs' =>
      cases f2 with
      | zero => simp at h2
      | succ f2' =>
        rw [utf8DecodeLoop, utf8DecodeLoop]
        cases hdc : utf8DecodeChar (b0 :: bs') with
        | none => rfl
        | some pr =>
          obtain ⟨n, rest⟩ := pr
          have hlt := utf8DecodeChar_rest_lt _ _ _ hdc
          simp only [List.length_cons] at hlt h1 h2
          dsimp only
          rw [ih f2' rest (by omega) (by omega)]

/-- The encoding of a character is nonempty. -/
theorem utf8EncodeChar_ne_nil (c : Char) : utf8EncodeChar c ≠ [] := by
  unfold utf8EncodeChar
  split_ifs <;> simp

/-- UTF-8 decoding is a left inverse of UTF-8 encoding. -/
theorem utf8Decode_utf8Encode (s : String) : utf8Decode (utf8Encode s) = some s.data := by
  unfold utf8Encode utf8Decode
  induction s.data with
  | nil => rfl
  | cons c cs ih =>
    rw [List.map_cons, List.flatten_cons]
    obtain ⟨b, bt, hbc⟩ : ∃ b bt, utf8EncodeChar c = b :: bt := by
      cases hc : utf8EncodeChar c with
      | nil => exact absurd hc (utf8EncodeChar_ne_nil c)
      | cons b bt => exact ⟨b, bt, rfl⟩
    set rest := (cs.map utf8EncodeChar).flatten with hrest
    have hlen : (utf8EncodeChar c ++ rest).length = bt.length + rest.length + 1 := by
      rw [hbc]
      simp only [List.cons_append, List.length_cons, List.length_append]
    rw [hlen, hbc, List.cons_append]
    rw [utf8DecodeLoop]
    rw [show b :: (bt ++ rest) = utf8EncodeChar c ++ rest from by
      rw [hbc, List.cons_append]]
    rw [utf8DecodeChar_encodeChar]
    dsimp only
    rw [utf8DecodeLoop_congr (bt.length + rest.length) rest.length rest (by omega) (by omega)]
    rw [ih, Char.ofNat_toNat]
    rfl

/-- Base64 characters map back to their six-bit value. -/
theorem b64Index_b64Char : ∀ i < 64, b64Index (b64Char i) = i := by decide

/-- Base64 alphabet characters are never the padding character. -/
theorem b64Char_ne_pad : ∀ i < 64, b64Char i ≠ '=' := by decide

/-- Base64 decoding undoes Base64 encoding of a byte string. -/
theorem b64DecodeGroups_encodeGroups (bs : List Nat) : (∀ b ∈ bs, b < 256) →
    b64DecodeGroups ((b64EncodeGroups bs).takeWhile (· ≠ '=')) = bs := by
  induction bs using b64EncodeGroups.induct with
  | case1 => intro h; rfl
  | case2 b0 =>
    intro h
    have h0 : b0 < 256 := h b0 (by simp)
    rw [b64EncodeGroups]
    rw [List.takeWhile_cons,
      if_pos (by simp only [decide_eq_true_eq]; exact b64Char_ne_pad (b0 / 4) (by omega))]
    rw [List.takeWhile_cons,
      if_pos (by simp only [decide_eq_true_eq]; exact b64Char_ne_pad (b0 % 4 * 16) (by omega))]
    rw [List.takeWhile_cons, if_neg (by simp)]
    rw [b64DecodeGroups]
    rw [b64Index_b64Char (b0 / 4) (by omega), b64Index_b64Char (b0 % 4 * 16) (by omega)]
    simp only [List.cons.injEq, and_true]
    omega
  | case3 b0 b1 =>
    intro h
    have h0 : b0 < 256 := h b0 (by simp)
    have h1 : b1 < 256 := h b1 (by simp)
    rw [b64EncodeGroups]
    rw [List.takeWhile_cons,
      if_pos (by simp only [decide_eq_true_eq]; exact b64Char_ne_pad (b0 / 4) (by omega))]
    rw [List.takeWhile_cons,
      if_pos (by simp only [decide_eq_true_eq]; exact b64Char_ne_pad (b0 % 4 * 16 + b1 / 16) (by omega))]
    rw [List.takeWhile_cons,
      if_pos (by simp only [decide_eq_true_eq]; exact b64Char_ne_pad (b1 % 16 * 4) (by omega))]
    rw [List.takeWhile_cons, if_neg (by simp)]
    rw [b64DecodeGroups]
    rw [b64Index_b64Char (b0 / 4) (by omega),
      b64Index_b64Char (b0 % 4 * 16 + b1 / 16) (by omega),
      b64Index_b64Char (b1 % 16 * 4) (by omega)]
    simp only [List.cons.injEq, and_true]
    constructor <;> omega
  | case4 b0 b1 b2 rest ih =>
    intro h
    have h0 : b0 < 256 := h b0 (by simp)
    have h1 : b1 < 256 := h b1 (by simp)
    have h2 : b2 < 256 := h b2 (by simp)
    rw [b64EncodeGroups]
    rw [List.takeWhile_cons,
      if_pos (by simp only [decide_eq_true_eq]; exact b64Char_ne_pad (b0 / 4) (by omega))]
    rw [List.takeWhile_cons,
      if_pos (by simp only [decide_eq_true_eq]; exact b64Char_ne_pad (b0 % 4 * 16 + b1 / 16) (by omega))]
    rw [List.takeWhile_cons,
      if_pos (by simp only [decide_eq_true_eq]; exact b64Char_ne_pad (b1 % 16 * 4 + b2 / 64) (by omega))]
    rw [List.takeWhile_cons,
      if_pos (by simp only [decide_eq_true_eq]; exact b64Char_ne_pad (b2 % 64) (by omega))]
    rw [b64DecodeGroups]
    rw [b64Index_b64Char (b0 / 4) (by omega),
      b64Index_b64Char (b0 % 4 * 16 + b1 / 16) (by omega),
      b64Index_b64Char (b1 % 16 * 4 + b2 / 64) (by omega),
      b64Index_b64Char (b2 % 64) (by omega)]
    rw [ih (fun b hb => h b (by simp [hb]))]
    simp only [List.cons.injEq, and_true]
    refine ⟨?_, ?_, ?_⟩ <;> omega

/-- `CryptoJS.enc.Base64.parse` undoes `CryptoJS.enc.Base64.stringify` on
byte strings. -/
theorem b64Decode_b64Encode (bs : List Nat) (h : ∀ b ∈ bs, b < 256) :
    b64Decode (b64Encode bs) = bs := by
  unfold b64Decode b64Encode
  exact b64DecodeGroups_encodeGroups bs h

/-- Stripping the PKCS7 count byte undoes padding. -/
theorem pkcs7Unpad_pkcs7Pad (bs : List Nat) : pkcs7Unpad (pkcs7Pad bs) = bs := by
  unfold pkcs7Pad pkcs7Unpad
  set n := 16 - bs.length % 16 with hn
  have hn1 : 1 ≤ n := by omega
  have hlast : (bs ++ List.replicate n n).getLast? = some n := by
    obtain ⟨k, hk⟩ : ∃ k, n = k + 1 := ⟨n - 1, by omega⟩
    rw [hk, List.replicate_succ', ← List.append_assoc, List.getLast?_concat]
  rw [hlast]
  simp only [Option.getD_some, List.length_append, List.length_replicate]
  rw [show bs.length + n - n = bs.length from by omega]
  exact List.take_left bs _

/-- Padding produces bytes when given bytes. -/
theorem pkcs7Pad_lt (bs : List Nat) (h : ∀ b ∈ bs, b < 256) :
    ∀ b ∈ pkcs7Pad bs, b < 256 := by
  intro b hb
  unfold pkcs7Pad at hb
  rw [List.mem_append] at hb
  rcases hb with hb | hb
  · exact h b hb
  · have := List.eq_of_mem_replicate hb
    omega

/-- The padded length is a multiple of the block size. -/
theorem pkcs7Pad_length (bs : List Nat) : (pkcs7Pad bs).length % 16 = 0 := by
  unfold pkcs7Pad
  simp only [List.length_append, List.length_replicate]
  omega

/-- The fuelled block splitter ignores surplus fuel. -/
theorem fullBlocksFuel_congr (f1 : Nat) : ∀ f2 bs, bs.length ≤ f1 → bs.length ≤ f2 →
    fullBlocksFuel f1 bs = fullBlocksFuel f2 bs := by
  induction f1 with
  | zero =>
    intro f2 bs h1 h2
    have hbs : bs = [] := List.eq_nil_of_length_eq_zero (by omega)
    rw [hbs]
    cases f2 with
    | zero => rfl
    | succ f2' => simp [fullBlocksFuel]
  | succ f ih =>
    intro f2 bs h1 h2
    cases f2 with
    | zero =>
      have hbs : bs = [] := List.eq_nil_of_length_eq_zero (by omega)
      rw [hbs]
      simp [fullBlocksFuel]
    | succ f2' =>
      rw [fullBlocksFuel, fullBlocksFuel]
      by_cases hlt : bs.length < 16
      · rw [if_pos hlt, if_pos hlt]
      · rw [if_neg hlt, if_neg hlt]
        rw [ih f2' (bs.drop 16) (by simp [List.length_drop]; omega)
          (by simp [List.length_drop]; omega)]

/-- Splitting after prepending one full block peels that block off. -/
theorem fullBlocks_cons (b r : List Nat) (hb : b.length = 16) :
    fullBlocks (b ++ r) = b :: fullBlocks r := by
  unfold fullBlocks
  rw [List.length_append, hb]
  rw [show 16 + r.length = (15 + r.length) + 1 from by omega]
  rw [fullBlocksFuel]
  rw [if_neg (by rw [List.length_append, hb]; omega)]
  rw [show (16 : Nat) = b.length from by rw [hb]]
  rw [List.take_left, List.drop_left]
  rw [fullBlocksFuel_congr (15 + r.length) r.length r (by omega) (le_refl _)]

/-- Splitting the concatenation of full blocks recovers the blocks. -/
theorem fullBlocks_flatten (bls : List (List Nat)) (h : ∀ b ∈ bls, b.length = 16) :
    fullBlocks bls.flatten = bls := by
  induction bls with
  | nil => rfl
  | cons b r ih =>
    rw [List.flatten_cons, fullBlocks_cons b r.flatten (h b (by simp))]
    rw [ih (fun x hx => h x (by simp [hx]))]

/-- Flattening the full blocks of a block-aligned byte string recovers it. -/
theorem flatten_fullBlocks (n : Nat) : ∀ bs : List Nat, bs.length = n → n % 16 = 0 →
    (fullBlocks bs).flatten = bs := by
  induction n using Nat.strong_induction_on with
  | _ n ih =>
    intro bs hlen hmod
    cases n with
    | zero =>
      have hbs : bs = [] := List.eq_nil_of_length_eq_zero hlen
      rw [hbs]
      rfl
    | succ m =>
      have h16 : 16 ≤ m + 1 := by omega
      unfold fullBlocks
      rw [hlen, fullBlocksFuel]
      rw [if_neg (by omega)]
      rw [fullBlocksFuel_congr m (bs.drop 16).length (bs.drop 16)
        (by simp [List.length_drop]; omega) (le_refl _)]
      rw [List.flatten_cons]
      have hrec : (fullBlocks (bs.drop 16)).flatten = bs.drop 16 := by
        refine ih (m + 1 - 16) (by omega) (bs.drop 16) (by simp [List.length_drop]; omega)
          (by omega)
      unfold fullBlocks at hrec
      rw [hrec]
      exact List.take_append_drop 16 bs

/-- Every full block of a block-aligned byte string has block length. -/
theorem fullBlocks_length (n : Nat) : ∀ bs : List Nat, bs.length = n → n % 16 = 0 →
    ∀ b ∈ fullBlocks bs, b.length = 16 := by
  induction n using Nat.strong_induction_on with
  | _ n ih =>
    intro bs hlen hmod b hb
    cases n with
    | zero =>
      have hbs : bs = [] := List.eq_nil_of_length_eq_zero hlen
      rw [hbs] at hb
      exact absurd hb (by simp [fullBlocks, fullBlocksFuel])
    | succ m =>
      have h16 : 16 ≤ m + 1 := by omega
      unfold fullBlocks at hb
      rw [hlen, fullBlocksFuel, if_neg (by omega)] at hb
      rw [fullBlocksFuel_congr m (bs.drop 16).length (bs.drop 16)
        (by simp [List.length_drop]; omega) (le_refl _)] at hb
      rcases List.mem_cons.mp hb with hb | hb
      · rw [hb, List.length_take]
        omega
      · exact ih (m + 1 - 16) (by omega) (bs.drop 16)
          (by simp [List.length_drop]; omega) (by omega) b hb

/-- XOR with the same block twice is the identity. -/
theorem xorBytes_cancel (a : List Nat) : ∀ b, a.length = b.length →
    xorBytes a (xorBytes a b) = b := by
  induction a with
  | nil =>
    intro b hb
    have : b = [] := List.eq_nil_of_length_eq_zero (by simp at hb; omega)
    rw [this]
    rfl
  | cons x xs ih =>
    intro b hb
    cases b with
    | nil => simp at hb
    | cons y ys =>
      unfold xorBytes at ih ⊢
      rw [List.zipWith_cons_cons, List.zipWith_cons_cons]
      rw [← Nat.xor_assoc, Nat.xor_self, Nat.zero_xor]
      rw [ih ys (by simpa using hb)]

/-- XOR of byte blocks yields bytes. -/
theorem xorBytes_lt (a : List Nat) : ∀ b, (∀ x ∈ a, x < 256) → (∀ x ∈ b, x < 256) →
    ∀ x ∈ xorBytes a b, x < 256 := by
  induction a with
  | nil => intro b _ _ x hx; exact absurd hx (by simp [xorBytes])
  | cons v vs ih =>
    intro b ha hb x hx
    cases b with
    | nil => exact absurd hx (by simp [xorBytes])
    | cons w ws =>
      unfold xorBytes at hx
      rw [List.zipWith_cons_cons, List.mem_cons] at hx
      rcases hx with hx | hx
      · rw [hx]
        have h1 : v < 2 ^ 8 := ha v (by simp)
        have h2 : w < 2 ^ 8 := hb w (by simp)
        exact Nat.xor_lt_two_pow h1 h2
      · exact ih ws (fun y hy => ha y (by simp [hy])) (fun y hy => hb y (by simp [hy])) x hx

/-- The length of an XOR of two equal-length blocks. -/
theorem xorBytes_length (a b : List Nat) (h : a.length = b.length) :
    (xorBytes a b).length = a.length := by
  unfold xorBytes
  rw [List.length_zipWith]
  omega

/-- CBC ciphertext blocks have block length when the block cipher does. -/
theorem cbcEncrypt_length (enc : List Nat → List Nat)
    (henc : ∀ b, b.length = 16 → (enc b).length = 16) :
    ∀ (bls : List (List Nat)) prev, prev.length = 16 → (∀ b ∈ bls, b.length = 16) →
      ∀ cb ∈ cbcEncrypt enc prev bls, cb.length = 16 := by
  intro bls
  induction bls with
  | nil => intro prev _ _ cb hcb; exact absurd hcb (by simp [cbcEncrypt])
  | cons b rest ih =>
    intro prev hprev hall cb hcb
    rw [cbcEncrypt] at hcb
    have hxor : (xorBytes prev b).length = 16 := by
      rw [xorBytes_length prev b (by rw [hprev, hall b (by simp)])]
      exact hprev
    have hc : (enc (xorBytes prev b)).length = 16 := henc _ hxor
    rw [List.mem_cons] at hcb
    rcases hcb with hcb | hcb
    · rw [hcb]; exact hc
    · exact ih (enc (xorBytes prev b)) hc (fun y hy => hall y (by simp [hy])) cb hcb

/-- CBC ciphertext blocks consist of bytes when the block cipher maps bytes
to bytes. -/
theorem cbcEncrypt_lt (enc : List Nat → List Nat)
    (henc : ∀ b, b.length = 16 → (enc b).length = 16)
    (hencB : ∀ b, b.length = 16 → (∀ x ∈ b, x < 256) → ∀ x ∈ enc b, x < 256) :
    ∀ (bls : List (List Nat)) prev, prev.length = 16 → (∀ x ∈ prev, x < 256) →
      (∀ b ∈ bls, b.length = 16) → (∀ b ∈ bls, ∀ x ∈ b, x < 256) →
      ∀ cb ∈ cbcEncrypt enc prev bls, ∀ x ∈ cb, x < 256 := by
  intro bls
  induction bls with
  | nil => intro prev _ _ _ _ cb hcb; exact absurd hcb (by simp [cbcEncrypt])
  | cons b rest ih =>
    intro prev hprev hprevB hall hallB cb hcb
    rw [cbcEncrypt] at hcb
    have hxor : (xorBytes prev b).length = 16 := by
      rw [xorBytes_length prev b (by rw [hprev, hall b (by simp)])]
      exact hprev
    have hxorB : ∀ x ∈ xorBytes prev b, x < 256 :=
      xorBytes_lt prev b hprevB (hallB b (by simp))
    have hc : (enc (xorBytes prev b)).length = 16 := henc _ hxor
    have hcB : ∀ x ∈ enc (xorBytes prev b), x < 256 := hencB _ hxor hxorB
    rw [List.mem_cons] at hcb
    rcases hcb with hcb | hcb
    · rw [hcb]; exact hcB
    · exact ih (enc (xorBytes prev b)) hc hcB (fun y hy => hall y (by simp [hy]))
        (fun y hy => hallB y (by simp [hy])) cb hcb

/-- CBC decryption inverts CBC encryption under an inverse block cipher. -/
theorem cbcDecrypt_cbcEncrypt (enc dec : List Nat → List Nat)
    (hdec : ∀ b, b.length = 16 → dec (enc b) = b)
    (henc : ∀ b, b.length = 16 → (enc b).length = 16) :
    ∀ (bls : List (List Nat)) prev, prev.length = 16 → (∀ b ∈ bls, b.length = 16) →
      cbcDecrypt dec prev (cbcEncrypt enc prev bls) = bls := by
  intro bls
  induction bls with
  | nil => intro prev _ _; rfl
  | cons b rest ih =>
    intro prev hprev hall
    rw [cbcEncrypt]
    rw [cbcDecrypt]
    have hxor : (xorBytes prev b).length = 16 := by
      rw [xorBytes_length prev b (by rw [hprev, hall b (by simp)])]
      exact hprev
    rw [hdec _ hxor]
    rw [xorBytes_cancel prev b (by rw [hprev, hall b (by simp)])]
    rw [ih (enc (xorBytes prev b)) (henc _ hxor) (fun y hy => hall y (by simp [hy]))]

/-- Every byte of every full block comes from the original byte string. -/
theorem fullBlocks_subset (n : Nat) : ∀ bs : List Nat, bs.length = n →
    ∀ b ∈ fullBlocks bs, ∀ y ∈ b, y ∈ bs := by
  induction n using Nat.strong_induction_on with
  | _ n ih =>
    intro bs hlen b hb y hy
    unfold fullBlocks at hb
    cases hn : bs.length with
    | zero =>
      rw [hn] at hb
      exact absurd hb (by simp [fullBlocksFuel])
    | succ m =>
      rw [hn, fullBlocksFuel] at hb
      by_cases hlt : bs.length < 16
      · rw [if_pos hlt] at hb
        exact absurd hb (by simp)
      · rw [if_neg hlt] at hb
        rw [fullBlocksFuel_congr m (bs.drop 16).length (bs.drop 16)
          (by simp [List.length_drop]; omega) (le_refl _)] at hb
        rcases List.mem_cons.mp hb with hb | hb
        · rw [hb] at hy
          exact List.take_subset 16 bs hy
        · have hmem : y ∈ bs.drop 16 := by
            refine ih (bs.drop 16).length ?_ (bs.drop 16) rfl b hb y hy
            rw [List.length_drop]
            omega
          exact List.drop_subset 16 bs hmem

/-- The bytes of the `Salted__` container magic. -/
theorem saltMagic_lt : ∀ b ∈ saltMagic, b < 256 := by decide

/-- The container magic is eight bytes long. -/
theorem saltMagic_length : saltMagic.length = 8 := by decide

/-- C6 (amended, positive half): under a fixed key, decryption inverts
encryption — `decryptPassword (encryptPassword x) = x` for every secret
string `x` — given only that the salt is the 8 random bytes CryptoJS draws
and that the salt-indexed block maps behave like a block cipher: mutually
inverse on 16-byte blocks, block-length- and byte-preserving, with a 16-byte
iv.  (The reverse composition `encryptPassword (decryptPassword x) = x` is
refuted separately.) -/
theorem decryptPassword_encryptPassword (V : VaultCipher) (salt : List Nat) (x : String)
    (hsalt : salt.length = 8) (hsaltB : ∀ b ∈ salt, b < 256)
    (hdec : ∀ s b, b.length = 16 → V.decBlock s (V.encBlock s b) = b)
    (hlen : ∀ s b, b.length = 16 → (V.encBlock s b).length = 16)
    (hencB : ∀ s b, b.length = 16 → (∀ y ∈ b, y < 256) → ∀ y ∈ V.encBlock s b, y < 256)
    (hiv : ∀ s, (V.iv s).length = 16)
    (hivB : ∀ s, ∀ y ∈ V.iv s, y < 256) :
    decryptPassword V (encryptPassword V salt x) = .ok x := by
  unfold encryptPassword decryptPassword
  have hptB : ∀ b ∈ pkcs7Pad (utf8Encode x), b < 256 := by
    refine pkcs7Pad_lt _ ?_
    intro b hb
    unfold utf8Encode at hb
    rw [List.mem_flatten] at hb
    obtain ⟨l, hl, hbl⟩ := hb
    rw [List.mem_map] at hl
    obtain ⟨c, -, hc⟩ := hl
    rw [← hc] at hbl
    exact utf8EncodeChar_lt c b hbl
  have hptLen : (pkcs7Pad (utf8Encode x)).length % 16 = 0 := pkcs7Pad_length _
  have hblocks : ∀ b ∈ fullBlocks (pkcs7Pad (utf8Encode x)), b.length = 16 :=
    fullBlocks_length _ _ rfl hptLen
  have hblocksB : ∀ b ∈ fullBlocks (pkcs7Pad (utf8Encode x)), ∀ y ∈ b, y < 256 := by
    intro b hb y hy
    exact hptB y (fullBlocks_subset _ _ rfl b hb y hy)
  have hctLen : ∀ cb ∈ cbcEncrypt (V.encBlock salt) (V.iv salt)
      (fullBlocks (pkcs7Pad (utf8Encode x))), cb.length = 16 :=
    cbcEncrypt_length _ (hlen salt) _ _ (hiv salt) hblocks
  have hctB : ∀ cb ∈ cbcEncrypt (V.encBlock salt) (V.iv salt)
      (fullBlocks (pkcs7Pad (utf8Encode x))), ∀ y ∈ cb, y < 256 :=
    cbcEncrypt_lt _ (hlen salt) (hencB salt) _ _ (hiv salt) (hivB salt) hblocks hblocksB
  set ct := (cbcEncrypt (V.encBlock salt) (V.iv salt)
    (fullBlocks (pkcs7Pad (utf8Encode x)))).flatten with hct
  have hmsgB : ∀ b ∈ saltMagic ++ salt ++ ct, b < 256 := by
    intro b hb
    rw [List.append_assoc, List.mem_append, List.mem_append] at hb
    rcases hb with hb | hb | hb
    · exact saltMagic_lt b hb
    · exact hsaltB b hb
    · rw [hct, List.mem_flatten] at hb
      obtain ⟨cb, hcb, hbcb⟩ := hb
      exact hctB cb hcb b hbcb
  rw [b64Decode_b64Encode _ hmsgB]
  have htake8 : (saltMagic ++ salt ++ ct).take 8 = saltMagic := by
    rw [List.append_assoc, show (8 : Nat) = saltMagic.length from by rw [saltMagic_length]]
    exact List.take_left _ _
  have hdrop8 : (saltMagic ++ salt ++ ct).drop 8 = salt ++ ct := by
    rw [List.append_assoc, show (8 : Nat) = saltMagic.length from by rw [saltMagic_length]]
    exact List.drop_left _ _
  have hsalt8 : ((saltMagic ++ salt ++ ct).drop 8).take 8 = salt := by
    rw [hdrop8, show (8 : Nat) = salt.length from by rw [hsalt]]
    exact List.take_left _ _
  have hdrop16 : (saltMagic ++ salt ++ ct).drop 16 = ct := by
    rw [show (16 : Nat) = (saltMagic ++ salt).length from by
      rw [List.length_append, saltMagic_length, hsalt]]
    exact List.drop_left _ _
  dsimp only
  rw [htake8, if_pos rfl, if_pos rfl, hsalt8, hdrop16]
  rw [hct, fullBlocks_flatten _ hctLen]
  rw [cbcDecrypt_cbcEncrypt (V.encBlock salt) (V.decBlock salt) (hdec salt) (hlen salt)
    _ _ (hiv salt) hblocks]
  rw [flatten_fullBlocks _ _ rfl hptLen]
  rw [pkcs7Unpad_pkcs7Pad]
  rw [utf8Decode_utf8Encode]

/-- C6 witness: the round-trip theorem instantiated with the identity block
cipher, the all-zero salt and a concrete secret. -/
theorem decryptPassword_encryptPassword_witness :
    decryptPassword idCipher (encryptPassword idCipher zeroSalt "Tr0ub4dor&3") =
      .ok "Tr0ub4dor&3" :=
  decryptPassword_encryptPassword idCipher zeroSalt "Tr0ub4dor&3" (by decide) (by decide)
    (fun _ _ _ => rfl) (fun _ _ h => h) (fun _ _ _ hB => hB) (fun _ => rfl)
    (fun _ y hy => by
      have := List.eq_of_mem_replicate hy
      omega)

/-- C6 counterexample: the reverse composition of the claimed round-trip law
fails at the secret `""`: `decryptPassword` maps the empty string to the
empty string, but `encryptPassword` maps the empty string to a nonempty
`Salted__` container, so `encryptPassword (decryptPassword "") ≠ ""`. -/
theorem encrypt_of_decrypt_counterexample :
    decryptPassword idCipher "" = .ok "" ∧
    encryptPassword idCipher zeroSalt "" ≠ "" := by
  decide

/-- C5 counterexample: the empty string is a malformed ciphertext (no
`Salted__` container, no ciphertext block), yet `decryptPassword` does not
fail on it — it silently returns the empty string as if it were the
plaintext. -/
theorem decrypt_malformed_counterexample :
    decryptPassword idCipher "" = .ok "" := by
  decide

/-- C5 (amended): `decryptPassword` performs no integrity verification, so it
does not reliably fail on malformed, tampered or wrong-key ciphertext: the
empty (malformed) ciphertext silently decrypts to the empty string under
every salt-indexed block cipher, and a ciphertext whose first payload byte
was tampered with inside the container silently decrypts to a wrong
plaintext instead of failing.  The only failure the unit can raise is the
malformed-UTF-8 error of the final decoding step. -/
theorem decrypt_no_integrity (V : VaultCipher) :
    decryptPassword V "" = .ok "" ∧
    decryptPassword idCipher tamperedCiphertext = .ok "Xr0ub4dor&3" ∧
    tamperedCiphertext ≠ encryptPassword idCipher zeroSalt "Tr0ub4dor&3" ∧
    "Xr0ub4dor&3" ≠ "Tr0ub4dor&3" :=
  ⟨rfl, by decide, by decide, by decide⟩

/-- C5 witness: the no-integrity theorem at the identity block cipher. -/
theorem decrypt_no_integrity_witness :
    decryptPassword idCipher "" = .ok "" ∧
    decryptPassword idCipher tamperedCiphertext = .ok "Xr0ub4dor&3" ∧
    tamperedCiphertext ≠ encryptPassword idCipher zeroSalt "Tr0ub4dor&3" ∧
    "Xr0ub4dor&3" ≠ "Tr0ub4dor&3" :=
  decrypt_no_integrity idCipher

end App
